import Mathlib

/-!
Shallow embedding of the JNI context bridge in
`android/app/src/main/cpp/whisper-jni.cpp`.

The bridge mediates between a managed caller and an external inference
engine (the whisper C API).  The engine itself is not part of the
repository; following the external-interface contract of the spec (§6) it
is modelled as an abstract record of pure functions.  Each bridge
operation is embedded as a pure Lean function returning its result
together with a trace of the observable events it performs (JNI
acquire/release calls, engine calls, log lines), in source order.
-/

namespace Dictator

/-- Sampling strategies selectable through `whisper_full_default_params`.
The bridge only ever requests `WHISPER_SAMPLING_GREEDY`. -/
inductive SamplingStrategy where
  | greedy
  | beamSearch
deriving DecidableEq

/-- The decoding-parameter struct `whisper_full_params`, restricted to the
fields the bridge reads or writes (lines 45–55 of the source).  The field
`extra` abstracts, as a single opaque value, every other field of the
engine's struct, which the bridge leaves at its default. -/
structure FullParams where
  strategy : SamplingStrategy
  print_progress : Bool
  print_special : Bool
  print_timestamps : Bool
  print_realtime : Bool
  translate : Bool
  language : String
  n_threads : Nat
  no_context : Bool
  single_segment : Bool
  extra : Nat
deriving DecidableEq

/-- Abstract model of the external inference engine (spec §6), over a type
`α` of audio samples.  A context pointer is modelled as a `Nat` address; a
successful `whisper_init_from_file_with_params` returns a non-null
pointer, i.e. an address that is provably nonzero.
`full_default_strategy` records the engine contract that
`whisper_full_default_params s` builds a parameter struct for the
requested strategy `s`. -/
structure Engine (α : Type) where
  init_from_file : String → Option {n : Nat // n ≠ 0}
  full_default_params : SamplingStrategy → FullParams
  full_default_strategy : ∀ s, (full_default_params s).strategy = s
  full : Nat → FullParams → List α → Nat → Int
  full_n_segments : Nat → Nat
  full_get_segment_text : Nat → Nat → Option String

/-- Observable events of one bridge call, in source order: JNI string and
array acquisition/release, engine calls, and log lines (with the dynamic
data each log line carries). -/
inductive Event (α : Type) where
  | getStringUTFChars (path : String)
  | logLoadingModel (path : String)
  | whisperContextDefaultParams
  | whisperInitFromFileWithParams (path : String)
  | releaseStringUTFChars
  | logLoadFailed
  | logModelLoaded
  | getArrayLength
  | getFloatArrayElements
  | logTranscribing (numSamples : Nat)
  | whisperFull (params : FullParams) (samples : List α) (numSamples : Nat)
  | releaseFloatArrayElements
  | logTranscriptionFailed (code : Int)
  | whisperFullNSegments
  | whisperFullGetSegmentText (i : Nat)
  | logTranscriptionResult (text : String)
  | whisperFree (handle : Nat)
  | logContextFreed
deriving DecidableEq

/-- The whitespace set of the source's trim: `" \t\n\r"`. -/
def isTrimChar (c : Char) : Bool :=
  c == ' ' || c == '\t' || c == '\n' || c == '\r'

/-- `std::string::find_first_not_of(" \t\n\r")` on the character list:
index of the first character outside the set, `none` if every character is
in the set. -/
def find_first_not_of : List Char → Option Nat
  | [] => none
  | c :: cs =>
      if isTrimChar c then (find_first_not_of cs).map (· + 1) else some 0

/-- `std::string::find_last_not_of(" \t\n\r")`: index of the last
character outside the set, computed as length-1-k where k is the first
such index from the back. -/
def find_last_not_of (cs : List Char) : Option Nat :=
  (find_first_not_of cs.reverse).map (fun k => cs.length - 1 - k)

/-- The trim of lines 77–84 of the source: `find_first_not_of`,
`find_last_not_of`, then `substr(start, end - start + 1)`; the empty
string when everything is whitespace. -/
def trimWhitespace (s : String) : String :=
  match find_first_not_of s.data, find_last_not_of s.data with
  | some st, some en => ⟨(s.data.drop st).take (en - st + 1)⟩
  | _, _ => ""

/-- The segment loop of lines 66–73: concatenate the text of segments
`0 .. n_segments - 1` in order, skipping a segment whose text pointer is
null. -/
def concatSegments (eng : Engine α) (ctx : Nat) : String :=
  (List.range (eng.full_n_segments ctx)).foldl
    (fun text i =>
      match eng.full_get_segment_text ctx i with
      | some segText => text ++ segText
      | none => text) ""

/-- The pinned decoding configuration of lines 45–55: engine defaults for
the greedy strategy, with the nine fields the bridge overwrites. -/
def transcribeParams (eng : Engine α) : FullParams :=
  { eng.full_default_params .greedy with
      print_progress := false
      print_special := false
      print_timestamps := false
      print_realtime := false
      translate := false
      language := "en"
      n_threads := 4
      no_context := true
      single_segment := false }

/-- `Java_it_shek_dictator_app_WhisperLib_initContext`: copy the path,
log, build default context params, construct the context, release the
path copy, then branch on success. -/
def initContext (eng : Engine α) (modelPath : String) :
    Nat × List (Event α) :=
  let pre : List (Event α) :=
    [.getStringUTFChars modelPath, .logLoadingModel modelPath,
     .whisperContextDefaultParams, .whisperInitFromFileWithParams modelPath,
     .releaseStringUTFChars]
  match eng.init_from_file modelPath with
  | none => (0, pre ++ [.logLoadFailed])
  | some c => (c.val, pre ++ [.logModelLoaded])

/-- `Java_it_shek_dictator_app_WhisperLib_transcribe`: null-handle check,
acquire the audio array, run `whisper_full` with the pinned parameters,
release the array, then either log the failure code and return `""` or
concatenate and trim the segments. -/
def transcribe (eng : Engine α) (contextPtr : Nat) (audioData : List α) :
    String × List (Event α) :=
  if contextPtr = 0 then
    ("", [])
  else
    let numSamples := audioData.length
    let params := transcribeParams eng
    let result := eng.full contextPtr params audioData numSamples
    let pre : List (Event α) :=
      [.getArrayLength, .getFloatArrayElements, .logTranscribing numSamples,
       .whisperFull params audioData numSamples, .releaseFloatArrayElements]
    if result ≠ 0 then
      ("", pre ++ [.logTranscriptionFailed result])
    else
      let text := concatSegments eng contextPtr
      let trimmed := trimWhitespace text
      (trimmed,
        pre ++ [.whisperFullNSegments] ++
          (List.range (eng.full_n_segments contextPtr)).map
            (fun i => .whisperFullGetSegmentText i) ++
          [.logTranscriptionResult trimmed])

/-- `Java_it_shek_dictator_app_WhisperLib_freeContext`: a silent no-op on
the null handle, otherwise `whisper_free` followed by the completion
log. -/
def freeContext (_eng : Engine α) (contextPtr : Nat) : List (Event α) :=
  if contextPtr = 0 then []
  else [.whisperFree contextPtr, .logContextFreed]

/-- Recognizer for the engine calls a `transcribe` call could make. -/
def isEngineCall : Event α → Bool
  | .whisperFull _ _ _ => true
  | .whisperFullNSegments => true
  | .whisperFullGetSegmentText _ => true
  | _ => false

/-- Recognizer for the release of the borrowed audio array. -/
def isReleaseFloat : Event α → Bool
  | .releaseFloatArrayElements => true
  | _ => false

/-- Recognizer for the release of the native copy of the path string. -/
def isReleaseString : Event α → Bool
  | .releaseStringUTFChars => true
  | _ => false

/-- Recognizer for the engine's inference entry point. -/
def isFullCall : Event α → Bool
  | .whisperFull _ _ _ => true
  | _ => false

/-- Recognizer for the engine's free routine. -/
def isFreeCall : Event α → Bool
  | .whisperFree _ => true
  | _ => false

/-- Recognizer for log lines. -/
def isLogEvent : Event α → Bool
  | .logLoadingModel _ => true
  | .logLoadFailed => true
  | .logModelLoaded => true
  | .logTranscribing _ => true
  | .logTranscriptionFailed _ => true
  | .logTranscriptionResult _ => true
  | .logContextFreed => true
  | _ => false

/-- List-level form of the source trim (lines 77–84). -/
def trimList (cs : List Char) : List Char :=
  match find_first_not_of cs, find_last_not_of cs with
  | some st, some en => (cs.drop st).take (en - st + 1)
  | _, _ => []

/-- Right trim at the list level, via `find_last_not_of`. -/
def trimRightList (l : List Char) : List Char :=
  match find_last_not_of l with
  | some en => l.take (en + 1)
  | none => []

/-- Spec-side trim (§3 of the spec): remove ASCII whitespace at the two
outer edges only, by `dropWhile` from the front and from the back. -/
def trimmedSpec (s : String) : String :=
  ⟨((s.data.dropWhile isTrimChar).reverse.dropWhile isTrimChar).reverse⟩

/-- Spec-side concatenation: the texts in order, with no separator. -/
def concatAll (l : List String) : String := l.foldr (· ++ ·) ""

/-- Spec-side transcript (§3): present segment texts concatenated in
order, then trimmed at the outer edges. -/
def specTranscript (texts : List (Option String)) : String :=
  trimmedSpec (concatAll (texts.filterMap id))

/-- The engine-reported segment texts (present or absent), in order. -/
def specSegTexts (eng : Engine α) (ctx : Nat) : List (Option String) :=
  (List.range (eng.full_n_segments ctx)).map (eng.full_get_segment_text ctx)

theorem find_first_not_of_map_drop (l : List Char) :
    (match find_first_not_of l with
     | some st => l.drop st
     | none => ([] : List Char)) = l.dropWhile isTrimChar := by
  induction l with
  | nil => rfl
  | cons c cs ih =>
    by_cases h : isTrimChar c
    · cases hff : find_first_not_of cs with
      | none =>
        rw [hff] at ih
        simp [find_first_not_of, h, hff, List.dropWhile_cons, ← ih]
      | some st =>
        rw [hff] at ih
        simp [find_first_not_of, h, hff, List.dropWhile_cons, ← ih]
    · simp [find_first_not_of, h, List.dropWhile_cons]

theorem find_first_not_of_eq_none_iff (l : List Char) :
    find_first_not_of l = none ↔ ∀ c ∈ l, isTrimChar c := by
  induction l with
  | nil => simp [find_first_not_of]
  | cons c cs ih =>
    by_cases h : isTrimChar c <;>
      simp [find_first_not_of, h, Option.map_eq_none', ih]

theorem find_first_not_of_lt_length (l : List Char) (k : Nat)
    (h : find_first_not_of l = some k) : k < l.length := by
  induction l generalizing k with
  | nil => simp [find_first_not_of] at h
  | cons c cs ih =>
    by_cases hc : isTrimChar c
    · simp only [find_first_not_of, hc, if_pos, Option.map_eq_some'] at h
      obtain ⟨k', hk', rfl⟩ := h
      exact Nat.succ_lt_succ (ih k' hk')
    · simp only [find_first_not_of, hc, if_neg, not_false_iff] at h
      cases h
      exact Nat.succ_pos _

theorem find_first_not_of_append (l₁ l₂ : List Char) :
    find_first_not_of (l₁ ++ l₂) =
      match find_first_not_of l₁ with
      | some i => some i
      | none => (find_first_not_of l₂).map (· + l₁.length) := by
  induction l₁ with
  | nil =>
    cases h : find_first_not_of l₂ <;> simp [find_first_not_of, h]
  | cons c cs ih =>
    by_cases h : isTrimChar c
    · cases hff : find_first_not_of cs with
      | none =>
        rw [hff] at ih
        cases h₂ : find_first_not_of l₂ with
        | none => simp [find_first_not_of, h, ih, hff, h₂]
        | some k =>
          simp only [List.cons_append, List.append_eq, find_first_not_of, h,
            if_true, hff, ih, h₂, Option.map_none', Option.map_some',
            List.length_cons]
          exact congrArg some (by omega)
      | some st =>
        rw [hff] at ih
        simp [find_first_not_of, h, ih, hff]
    · simp [find_first_not_of, h]

theorem dropWhile_eq_drop_of_ff (l : List Char) (k : Nat)
    (h : find_first_not_of l = some k) :
    l.dropWhile isTrimChar = l.drop k := by
  have hmap := find_first_not_of_map_drop l
  rw [h] at hmap
  exact hmap.symm

theorem dropWhile_eq_nil_of_ff (l : List Char)
    (h : find_first_not_of l = none) :
    l.dropWhile isTrimChar = [] := by
  have hmap := find_first_not_of_map_drop l
  rw [h] at hmap
  exact hmap.symm

theorem dropWhile_head_false (p : Char → Bool) (l : List Char) (d : Char)
    (l' : List Char) (h : l.dropWhile p = d :: l') : p d = false := by
  induction l with
  | nil => simp [List.dropWhile] at h
  | cons c cs ih =>
    by_cases hc : p c = true
    · rw [List.dropWhile_cons, if_pos hc] at h
      exact ih h
    · rw [List.dropWhile_cons, if_neg hc] at h
      injection h with h1 _
      subst h1
      simpa using hc

theorem trimRightList_eq (l : List Char) :
    trimRightList l = (l.reverse.dropWhile isTrimChar).reverse := by
  cases h : find_first_not_of l.reverse with
  | none =>
    rw [dropWhile_eq_nil_of_ff _ h]
    simp [trimRightList, find_last_not_of, h]
  | some k =>
    have hk : k < l.length := by
      have h2 := find_first_not_of_lt_length l.reverse k h
      rwa [List.length_reverse] at h2
    rw [dropWhile_eq_drop_of_ff _ _ h]
    simp only [trimRightList, find_last_not_of, h, Option.map_some',
      List.length_reverse]
    rw [List.reverse_drop]
    simp only [List.reverse_reverse, List.length_reverse]
    congr 1
    omega

theorem trimList_eq_trimRightList (cs : List Char) :
    trimList cs = trimRightList (cs.dropWhile isTrimChar) := by
  by_cases hds : cs.dropWhile isTrimChar = []
  · have hcs : cs.takeWhile isTrimChar = cs := by
      have hsplit := List.takeWhile_append_dropWhile isTrimChar cs
      rwa [hds, List.append_nil] at hsplit
    have hall : ∀ c ∈ cs, isTrimChar c := by
      intro c hc
      rw [← hcs] at hc
      exact List.mem_takeWhile_imp hc
    have hff : find_first_not_of cs = none :=
      (find_first_not_of_eq_none_iff cs).mpr hall
    rw [hds]
    simp [trimList, hff, trimRightList, find_last_not_of, find_first_not_of]
  · have hsplit := List.takeWhile_append_dropWhile isTrimChar cs
    have hffws : find_first_not_of (cs.takeWhile isTrimChar) = none :=
      (find_first_not_of_eq_none_iff _).mpr
        (fun _ hc => List.mem_takeWhile_imp hc)
    obtain ⟨d, ds', hd⟩ : ∃ d ds', cs.dropWhile isTrimChar = d :: ds' := by
      cases hdd : cs.dropWhile isTrimChar with
      | nil => exact absurd hdd hds
      | cons d ds' => exact ⟨d, ds', rfl⟩
    have hdfalse : isTrimChar d = false := dropWhile_head_false _ _ _ _ hd
    have hffds : find_first_not_of (cs.dropWhile isTrimChar) = some 0 := by
      rw [hd]
      simp [find_first_not_of, hdfalse]
    have hffcs :
        find_first_not_of cs = some (cs.takeWhile isTrimChar).length := by
      conv_lhs => rw [← hsplit]
      rw [find_first_not_of_append, hffws]
      simp [hffds]
    obtain ⟨k, hk⟩ :
        ∃ k, find_first_not_of (cs.dropWhile isTrimChar).reverse = some k := by
      cases hkk : find_first_not_of (cs.dropWhile isTrimChar).reverse with
      | none =>
        exfalso
        have hall := (find_first_not_of_eq_none_iff _).mp hkk
        have hdmem : d ∈ (cs.dropWhile isTrimChar).reverse := by
          rw [hd]
          simp
        have hcontra := hall d hdmem
        rw [hdfalse] at hcontra
        exact Bool.false_ne_true hcontra
      | some k => exact ⟨k, rfl⟩
    have hklt : k < (cs.dropWhile isTrimChar).length := by
      have hl := find_first_not_of_lt_length _ _ hk
      rwa [List.length_reverse] at hl
    have hffcsr : find_first_not_of cs.reverse = some k := by
      conv_lhs => rw [← hsplit]
      rw [List.reverse_append, find_first_not_of_append, hk]
    have hflcs : find_last_not_of cs = some (cs.length - 1 - k) := by
      simp [find_last_not_of, hffcsr]
    have hflds : find_last_not_of (cs.dropWhile isTrimChar) =
        some ((cs.dropWhile isTrimChar).length - 1 - k) := by
      simp [find_last_not_of, hk]
    have hlen : cs.length =
        (cs.takeWhile isTrimChar).length + (cs.dropWhile isTrimChar).length := by
      conv_lhs => rw [← hsplit]
      exact List.length_append _ _
    have hdrop : cs.drop (cs.takeWhile isTrimChar).length =
        cs.dropWhile isTrimChar := by
      nth_rewrite 2 [← hsplit]
      exact List.drop_left _ _
    simp only [trimList, hffcs, hflcs, trimRightList, hflds, hdrop]
    congr 1
    omega

theorem trimWhitespace_eq_trimList (s : String) :
    trimWhitespace s = ⟨trimList s.data⟩ := by
  cases h1 : find_first_not_of s.data <;> cases h2 : find_last_not_of s.data <;>
    simp [trimWhitespace, trimList, h1, h2]

/-- The source's `find_first_not_of`/`find_last_not_of`/`substr` trim
computes exactly the spec's outer-edge trim. -/
theorem trimWhitespace_eq_trimmedSpec (s : String) :
    trimWhitespace s = trimmedSpec s := by
  rw [trimWhitespace_eq_trimList]
  unfold trimmedSpec
  exact congrArg String.mk
    (by rw [trimList_eq_trimRightList, trimRightList_eq])

theorem foldl_append_segments (f : Nat → Option String) (l : List Nat)
    (acc : String) :
    l.foldl (fun text i =>
      match f i with
      | some segText => text ++ segText
      | none => text) acc
    = acc ++ concatAll (l.filterMap f) := by
  induction l generalizing acc with
  | nil => simp [concatAll]
  | cons i l ih =>
    cases hf : f i with
    | none => simp [List.foldl_cons, hf, ih, List.filterMap_cons, concatAll]
    | some s =>
      simp only [List.foldl_cons, hf, ih, List.filterMap_cons]
      simp [concatAll, String.append_assoc]

/-- The source's segment loop computes the spec's concatenation of the
present segment texts, in order. -/
theorem concatSegments_eq (eng : Engine α) (ctx : Nat) :
    concatSegments eng ctx = concatAll ((specSegTexts eng ctx).filterMap id) := by
  unfold concatSegments specSegTexts
  rw [List.filterMap_map]
  rw [foldl_append_segments (eng.full_get_segment_text ctx)
    (List.range (eng.full_n_segments ctx)) ""]
  simp [Function.comp]

/-- A concrete engine for instantiating the theorems: loading succeeds at
address 42, inference always succeeds, and the result has the two
segments `" foo"` and `"bar "`. -/
def exampleEngine : Engine Unit where
  init_from_file := fun _ => some ⟨42, by decide⟩
  full_default_params := fun s =>
    { strategy := s, print_progress := true, print_special := true,
      print_timestamps := true, print_realtime := true, translate := true,
      language := "auto", n_threads := 1, no_context := false,
      single_segment := true, extra := 7 }
  full_default_strategy := fun _ => rfl
  full := fun _ _ _ _ => 0
  full_n_segments := fun _ => 2
  full_get_segment_text := fun _ i =>
    if i = 0 then some " foo" else if i = 1 then some "bar " else none

/-- A concrete engine whose model constructor and inference both fail. -/
def failEngine : Engine Unit where
  init_from_file := fun _ => none
  full_default_params := fun s =>
    { strategy := s, print_progress := true, print_special := true,
      print_timestamps := true, print_realtime := true, translate := true,
      language := "auto", n_threads := 1, no_context := false,
      single_segment := true, extra := 7 }
  full_default_strategy := fun _ => rfl
  full := fun _ _ _ _ => (-7 : Int)
  full_n_segments := fun _ => 0
  full_get_segment_text := fun _ _ => none

theorem transcribe_fst_success (eng : Engine α) (ctx : Nat) (a : List α)
    (hctx : ctx ≠ 0)
    (hok : eng.full ctx (transcribeParams eng) a a.length = 0) :
    (transcribe eng ctx a).1 = trimWhitespace (concatSegments eng ctx) := by
  simp [transcribe, hctx, hok]

theorem transcribe_fst_failure (eng : Engine α) (ctx : Nat) (a : List α)
    (hctx : ctx ≠ 0)
    (hfail : eng.full ctx (transcribeParams eng) a a.length ≠ 0) :
    (transcribe eng ctx a).1 = "" := by
  simp [transcribe, hctx, hfail]

theorem transcribe_snd_eq (eng : Engine α) (ctx : Nat) (a : List α)
    (hctx : ctx ≠ 0) :
    (transcribe eng ctx a).2 =
      [.getArrayLength, .getFloatArrayElements, .logTranscribing a.length,
       .whisperFull (transcribeParams eng) a a.length,
       .releaseFloatArrayElements] ++
      (if eng.full ctx (transcribeParams eng) a a.length ≠ 0 then
        [.logTranscriptionFailed
          (eng.full ctx (transcribeParams eng) a a.length)]
      else
        [.whisperFullNSegments] ++
          (List.range (eng.full_n_segments ctx)).map
            (fun i => .whisperFullGetSegmentText i) ++
          [.logTranscriptionResult
            (trimWhitespace (concatSegments eng ctx))]) := by
  by_cases hr : eng.full ctx (transcribeParams eng) a a.length ≠ 0 <;>
    simp [transcribe, hctx, hr]

theorem whisperFull_mem_transcribe (eng : Engine α) (ctx : Nat) (a : List α)
    (hctx : ctx ≠ 0) (p : FullParams) (s : List α) (n : Nat) :
    Event.whisperFull p s n ∈ (transcribe eng ctx a).2 ↔
      p = transcribeParams eng ∧ s = a ∧ n = a.length := by
  rw [transcribe_snd_eq eng ctx a hctx]
  by_cases hr : eng.full ctx (transcribeParams eng) a a.length ≠ 0 <;>
    simp [hr, List.mem_append, List.mem_map, eq_comm]

/-- Claim C1: a `transcribe` call on the zero-sentinel handle returns the
empty string and performs no engine call (`whisper_full`,
`whisper_full_n_segments`, `whisper_full_get_segment_text`), for every
input audio array including the empty one. -/
theorem transcribe_zero_handle_spec (eng : Engine α) (a : List α) :
    (transcribe eng 0 a).1 = "" ∧
    (transcribe eng 0 a).2.countP isEngineCall = 0 := by
  constructor <;> rfl

/-- Claim C2: on a successful `transcribe` call (non-zero handle, engine
status 0), the returned string is the in-order separator-free
concatenation of the present segment texts (absent ones skipped), trimmed
of ASCII whitespace only at the outer edges, as stated by the spec's
transcript rule. -/
theorem transcribe_success_transcript_spec (eng : Engine α) (ctx : Nat)
    (a : List α) (hctx : ctx ≠ 0)
    (hok : eng.full ctx (transcribeParams eng) a a.length = 0) :
    (transcribe eng ctx a).1 = specTranscript (specSegTexts eng ctx) := by
  rw [transcribe_fst_success eng ctx a hctx hok]
  unfold specTranscript
  rw [concatSegments_eq, trimWhitespace_eq_trimmedSpec]

/-- Claim C2 witness: with segments `" foo"` and `"bar "` the result is
`"foobar"`. -/
theorem transcribe_success_transcript_witness :
    (transcribe exampleEngine 1 []).1 =
      specTranscript (specSegTexts exampleEngine 1) ∧
    (transcribe exampleEngine 1 []).1 = "foobar" :=
  ⟨transcribe_success_transcript_spec exampleEngine 1 [] (by decide) rfl,
    by decide⟩

/-- Claim C3: when the engine's inference entry point reports a non-zero
status, `transcribe` returns exactly the empty string — never a partial
transcript — and the numeric code is only logged. -/
theorem transcribe_engine_failure_spec (eng : Engine α) (ctx : Nat)
    (a : List α) (hctx : ctx ≠ 0)
    (hfail : eng.full ctx (transcribeParams eng) a a.length ≠ 0) :
    (transcribe eng ctx a).1 = "" ∧
    Event.logTranscriptionFailed
        (eng.full ctx (transcribeParams eng) a a.length)
      ∈ (transcribe eng ctx a).2 := by
  refine ⟨transcribe_fst_failure eng ctx a hctx hfail, ?_⟩
  rw [transcribe_snd_eq eng ctx a hctx]
  simp [hfail]

/-- Claim C3 witness: the failing engine yields `""` and logs its code
`-7`. -/
theorem transcribe_engine_failure_witness :
    (transcribe failEngine 1 [()]).1 = "" ∧
    Event.logTranscriptionFailed (-7) ∈ (transcribe failEngine 1 [()]).2 :=
  transcribe_engine_failure_spec failEngine 1 [()] (by decide) (by decide)

/-- Claim C4: `initContext` returns a non-zero handle exactly when the
engine's context constructor succeeds, the zero sentinel exactly when it
returns null, and on success the handle is the context's address; failure
is signaled only through the sentinel (the operation is a total
function). -/
theorem initContext_sentinel_spec (eng : Engine α) (path : String) :
    ((initContext eng path).1 ≠ 0 ↔ (eng.init_from_file path).isSome) ∧
    ((initContext eng path).1 = 0 ↔ eng.init_from_file path = none) ∧
    (∀ c, eng.init_from_file path = some c →
      (initContext eng path).1 = c.val) := by
  cases h : eng.init_from_file path with
  | none => simp [initContext, h]
  | some c =>
    refine ⟨?_, ?_, ?_⟩
    · simp [initContext, h, c.property]
    · simp [initContext, h, c.property]
    · intro c' hc'
      injection hc' with hc''
      simp [initContext, h, hc'']

/-- Claim C4 witness: a successful load yields the nonzero address 42, a
failed one yields the sentinel 0. -/
theorem initContext_sentinel_witness :
    (initContext exampleEngine "model.bin").1 = 42 ∧
    (initContext failEngine "model.bin").1 = 0 :=
  ⟨(initContext_sentinel_spec exampleEngine "model.bin").2.2 ⟨42, by decide⟩ rfl,
    (initContext_sentinel_spec failEngine "model.bin").2.1.mpr rfl⟩

/-- Claim C5: every `transcribe` call that reaches the engine passes it
exactly the pinned configuration: greedy strategy, the four print flags
false, translate false, language "en", 4 threads, no_context true and
single_segment false. -/
theorem transcribe_pinned_params_spec (eng : Engine α) (ctx : Nat)
    (a : List α) (hctx : ctx ≠ 0) :
    (∃ p s n, Event.whisperFull p s n ∈ (transcribe eng ctx a).2) ∧
    (∀ p (s : List α) (n : Nat),
      Event.whisperFull p s n ∈ (transcribe eng ctx a).2 →
        p.strategy = SamplingStrategy.greedy ∧
        p.print_progress = false ∧ p.print_special = false ∧
        p.print_timestamps = false ∧ p.print_realtime = false ∧
        p.translate = false ∧ p.language = "en" ∧ p.n_threads = 4 ∧
        p.no_context = true ∧ p.single_segment = false) := by
  constructor
  · exact ⟨transcribeParams eng, a, a.length,
      (whisperFull_mem_transcribe eng ctx a hctx _ _ _).mpr ⟨rfl, rfl, rfl⟩⟩
  · intro p s n hmem
    obtain ⟨rfl, -, -⟩ :=
      (whisperFull_mem_transcribe eng ctx a hctx p s n).mp hmem
    exact ⟨eng.full_default_strategy _, rfl, rfl, rfl, rfl, rfl, rfl, rfl,
      rfl, rfl⟩

/-- Claim C5 witness: the engine is invoked, and the parameters it
receives carry the greedy strategy and language "en". -/
theorem transcribe_pinned_params_witness :
    Event.whisperFull (transcribeParams exampleEngine) [] 0
      ∈ (transcribe exampleEngine 1 ([] : List Unit)).2 ∧
    (transcribeParams exampleEngine).strategy = SamplingStrategy.greedy ∧
    (transcribeParams exampleEngine).language = "en" := by
  have hmem : Event.whisperFull (transcribeParams exampleEngine)
      ([] : List Unit) 0 ∈ (transcribe exampleEngine 1 ([] : List Unit)).2 :=
    by decide
  have hp := (transcribe_pinned_params_spec exampleEngine 1 [] (by decide)).2
    _ _ _ hmem
  exact ⟨hmem, hp.1, hp.2.2.2.2.2.2.1⟩

/-- Claim C6: `freeContext` on the zero sentinel is a silent no-op (no
engine free, no log); on a non-zero handle it calls the engine's free
routine exactly once on that handle and then logs completion. -/
theorem freeContext_spec (eng : Engine α) (h : Nat) :
    freeContext eng 0 = ([] : List (Event α)) ∧
    (h ≠ 0 →
      freeContext eng h = [Event.whisperFree h, Event.logContextFreed]) := by
  refine ⟨rfl, fun hh => ?_⟩
  simp [freeContext, hh]

/-- Claim C6 witness: handle 0 is a silent no-op; handle 5 frees once and
logs. -/
theorem freeContext_witness :
    freeContext exampleEngine 0 = ([] : List (Event Unit)) ∧
    freeContext exampleEngine 5 =
      [Event.whisperFree 5, Event.logContextFreed] :=
  ⟨(freeContext_spec exampleEngine 5).1,
    (freeContext_spec exampleEngine 5).2 (by decide)⟩

/-- Claim C7: on every `transcribe` call with a non-zero handle, the
borrowed audio array is acquired and then released exactly once,
immediately after the inference call returns, on both the success and the
failure path (the remainder of the trace contains no further release and
no further inference call). -/
theorem transcribe_release_audio_spec (eng : Engine α) (ctx : Nat)
    (a : List α) (hctx : ctx ≠ 0) :
    ∃ tail : List (Event α),
      (transcribe eng ctx a).2 =
        [.getArrayLength, .getFloatArrayElements, .logTranscribing a.length,
         .whisperFull (transcribeParams eng) a a.length,
         .releaseFloatArrayElements] ++ tail ∧
      tail.countP isReleaseFloat = 0 ∧ tail.countP isFullCall = 0 := by
  refine ⟨_, transcribe_snd_eq eng ctx a hctx, ?_, ?_⟩ <;>
    by_cases hr : eng.full ctx (transcribeParams eng) a a.length ≠ 0 <;>
      simp [hr, List.countP_append, List.countP_eq_zero, List.mem_map,
        isReleaseFloat, isFullCall]

/-- Claim C7 witness: the release-exactly-once trace shape at a concrete
call. -/
theorem transcribe_release_audio_witness :
    ∃ tail : List (Event Unit),
      (transcribe exampleEngine 1 []).2 =
        [.getArrayLength, .getFloatArrayElements, .logTranscribing 0,
         .whisperFull (transcribeParams exampleEngine) [] 0,
         .releaseFloatArrayElements] ++ tail ∧
      tail.countP isReleaseFloat = 0 ∧ tail.countP isFullCall = 0 :=
  transcribe_release_audio_spec exampleEngine 1 [] (by decide)

/-- Claim C8: every `initContext` call releases the temporary native copy
of the model-path string exactly once, before the success/failure branch
(the branch-dependent remainder of the trace contains no release). -/
theorem initContext_release_path_spec (eng : Engine α) (path : String) :
    ∃ tail : List (Event α),
      (initContext eng path).2 =
        [.getStringUTFChars path, .logLoadingModel path,
         .whisperContextDefaultParams, .whisperInitFromFileWithParams path,
         .releaseStringUTFChars] ++ tail ∧
      tail.countP isReleaseString = 0 := by
  cases h : eng.init_from_file path with
  | none =>
    exact ⟨[.logLoadFailed], by simp [initContext, h],
      by simp [List.countP_cons, isReleaseString]⟩
  | some c =>
    exact ⟨[.logModelLoaded], by simp [initContext, h],
      by simp [List.countP_cons, isReleaseString]⟩

/-- Claim C9: the sample count handed to the engine's inference entry
point is exactly the length of the caller's audio array, and the samples
passed are the array itself — no truncation, padding or minimum-length
check; an empty array is passed with count 0. -/
theorem transcribe_sample_count_spec (eng : Engine α) (ctx : Nat)
    (a : List α) (hctx : ctx ≠ 0) :
    Event.whisperFull (transcribeParams eng) a a.length
      ∈ (transcribe eng ctx a).2 ∧
    (∀ p (s : List α) (n : Nat),
      Event.whisperFull p s n ∈ (transcribe eng ctx a).2 →
        s = a ∧ n = a.length) := by
  constructor
  · exact (whisperFull_mem_transcribe eng ctx a hctx _ _ _).mpr ⟨rfl, rfl, rfl⟩
  · intro p s n hmem
    obtain ⟨-, rfl, rfl⟩ :=
      (whisperFull_mem_transcribe eng ctx a hctx p s n).mp hmem
    exact ⟨rfl, rfl⟩

/-- Claim C9 witness: a two-sample array is passed whole, with count 2;
an empty array is passed with count 0. -/
theorem transcribe_sample_count_witness :
    Event.whisperFull (transcribeParams exampleEngine) [(), ()] 2
      ∈ (transcribe exampleEngine 3 [(), ()]).2 ∧
    Event.whisperFull (transcribeParams exampleEngine) [] 0
      ∈ (transcribe exampleEngine 3 ([] : List Unit)).2 :=
  ⟨(transcribe_sample_count_spec exampleEngine 3 [(), ()] (by decide)).1,
    (transcribe_sample_count_spec exampleEngine 3 [] (by decide)).1⟩

/-- Claim C10: with the engine modelled as fixed deterministic functions,
`transcribe` is deterministic — two calls with the same handle and the
same audio samples return the identical string (the bridge holds no
mutable state between calls: each operation is a pure function of its
arguments). -/
theorem transcribe_deterministic_spec (eng : Engine α) (h₁ h₂ : Nat)
    (a₁ a₂ : List α) (hh : h₁ = h₂) (ha : a₁ = a₂) :
    (transcribe eng h₁ a₁).1 = (transcribe eng h₂ a₂).1 := by
  subst hh
  subst ha
  rfl

/-- Claim C10 witness: determinism at a concrete call. -/
theorem transcribe_deterministic_witness :
    (transcribe exampleEngine 1 [()]).1 = (transcribe exampleEngine 1 [()]).1 :=
  transcribe_deterministic_spec exampleEngine 1 1 [()] [()] rfl rfl

end Dictator
